import Mathlib

/-!
Verification of the core simulation functions of the RGP_Streamlit
pharmacokinetic PTA/CFR simulator (`app.py`).

The four core functions — `calculate_ft_mic`, `calculate_lognormal_params`,
`monte_carlo_simulation` and `calculate_cfr` — are embedded shallowly over
the reals.  Python floats are modelled as real numbers; the exceptions that
Python raises (`ValueError` from `math.log`/`math.sqrt`, `ZeroDivisionError`
from division, `TypeError` from comparing a string with a number) are
modelled with an explicit error type threaded through `Except`.  Python's
`dict` (which keeps insertion order and updates values in place) is
modelled by association lists, and NumPy's lognormal sampler
`np.random.lognormal(mean=mu, sigma=sigma)` by `exp (mu + sigma * z k)`
where `z : ℕ → ℝ` is the stream of underlying standard-normal draws,
consumed left to right exactly as the Python loops consume the global
random stream.
-/

/-- The Python exceptions relevant to the simulator. -/
inductive PyErr where
  | valueError
  | zeroDivisionError
  | typeError
deriving DecidableEq

/-- Result of `calculate_ft_mic`: the Python function returns either a float
or an error string (its `except` branch). -/
inductive FtMicResult where
  | num : ℝ → FtMicResult
  | str : String → FtMicResult

/-- The literal error string returned by `calculate_ft_mic`'s `except` branch. -/
def invalid_msg : String := "Invalid parameters. Please check your inputs."

/-- Embedding of `calculate_ft_mic(dose, fu, vd, mic, clt, di)` (app.py lines
12–20).  Python evaluates `math.log((dose*fu)/(vd*mic))` first: a zero
denominator raises `ZeroDivisionError`, a non-positive argument raises
`ValueError`; then `vd/clt` and `100/di` can raise `ZeroDivisionError`.
All three exceptions are caught and turned into the error string. -/
noncomputable def calculate_ft_mic (dose fu vd mic clt di : ℝ) : FtMicResult :=
  if vd * mic = 0 then .str invalid_msg
  else if (dose * fu) / (vd * mic) ≤ 0 then .str invalid_msg
  else if clt = 0 then .str invalid_msg
  else if di = 0 then .str invalid_msg
  else .num (max (Real.log ((dose * fu) / (vd * mic)) * (vd / clt) * (100 / di)) 0)

/-- Embedding of `calculate_lognormal_params(mean, std)` (app.py lines 22–26).
Python computes `mu = log(mean**2 / sqrt(variance + mean**2))` first
(`ZeroDivisionError` if the square root is zero, `ValueError` if the
quotient is not positive), then `sigma = sqrt(log(1 + variance / mean**2))`
(`ZeroDivisionError` if `mean**2` is zero).  Nothing catches these
exceptions, so they are surfaced in `Except`. -/
noncomputable def calculate_lognormal_params (mean std : ℝ) : Except PyErr (ℝ × ℝ) :=
  let variance := std ^ 2
  if Real.sqrt (variance + mean ^ 2) = 0 then .error .zeroDivisionError
  else if mean ^ 2 / Real.sqrt (variance + mean ^ 2) ≤ 0 then .error .valueError
  else if mean ^ 2 = 0 then .error .zeroDivisionError
  else .ok (Real.log (mean ^ 2 / Real.sqrt (variance + mean ^ 2)),
            Real.sqrt (Real.log (1 + variance / mean ^ 2)))

/-- Python `d[k] = v` on a dict modelled as an association list: replace the
value at the first occurrence of `k` in place, else append the pair. -/
def dict_insert {κ α : Type} [DecidableEq κ] : List (κ × α) → κ → α → List (κ × α)
  | [], k, v => [(k, v)]
  | (k', v') :: rest, k, v =>
      if k' = k then (k', v) :: rest else (k', v') :: dict_insert rest k v

/-- Python `d.get(k, v0)` on a dict modelled as an association list. -/
def lookupD {κ : Type} [DecidableEq κ] : List (κ × ℝ) → κ → ℝ → ℝ
  | [], _, v0 => v0
  | (k', v') :: rest, k, v0 => if k' = k then v' else lookupD rest k v0

/-- The accumulation step of `calculate_cfr` (app.py lines 53–55):
`if key not in d: d[key] = 0` followed by `d[key] += v`. -/
def cfr_add {κ : Type} [DecidableEq κ] : List (κ × ℝ) → κ → ℝ → List (κ × ℝ)
  | [], k, v => [(k, 0 + v)]
  | (k', v') :: rest, k, v =>
      if k' = k then (k', v' + v) :: rest else (k', v') :: cfr_add rest k v

/-- One NumPy lognormal draw clamped at zero, as in app.py lines 39–41:
`max(np.random.lognormal(mean=mu, sigma=sigma), 0)`, where `z k` is the
standard-normal variate consumed at position `k` of the random stream. -/
noncomputable def lognormal_draw (z : ℕ → ℝ) (mu sigma : ℝ) (k : ℕ) : ℝ :=
  max (Real.exp (mu + sigma * z k)) 0

/-- The innermost patient loop of `monte_carlo_simulation` (app.py lines
38–44) for one (regimen, threshold) pair: draw `n` patients starting at
stream position `base` (each patient consumes three draws: fu, vd, clt),
evaluate `calculate_ft_mic`, and count the patients whose result compares
`>= target`.  When `calculate_ft_mic` returns its error string, Python's
`ft_mic >= target` compares a `str` with a number and raises an uncaught
`TypeError`, aborting the whole simulation. -/
noncomputable def run_patients (z : ℕ → ℝ)
    (fu_mu fu_sigma vd_mu vd_sigma clt_mu clt_sigma dose di mic target : ℝ) :
    ℕ → ℕ → Except PyErr ℕ
  | _, 0 => .ok 0
  | base, n + 1 =>
    let fu := lognormal_draw z fu_mu fu_sigma base
    let vd := lognormal_draw z vd_mu vd_sigma (base + 1)
    let clt := lognormal_draw z clt_mu clt_sigma (base + 2)
    match calculate_ft_mic dose fu vd mic clt di with
    | .str _ => .error .typeError
    | .num r =>
      match run_patients z fu_mu fu_sigma vd_mu vd_sigma clt_mu clt_sigma
          dose di mic target (base + 3) n with
      | .error e => .error e
      | .ok s => .ok ((if target ≤ r then 1 else 0) + s)

/-- The regimen loop of `monte_carlo_simulation` (app.py lines 36–46) for one
threshold: for each `(dose, di)` run the patient loop and record
`(dose, di, (success_count / num_patients) * 100)`.  A zero patient count
makes the Python division raise `ZeroDivisionError`. -/
noncomputable def run_regimens (z : ℕ → ℝ)
    (fu_mu fu_sigma vd_mu vd_sigma clt_mu clt_sigma mic target : ℝ) (N : ℕ) :
    ℕ → List (ℝ × ℝ) → Except PyErr (List (ℝ × ℝ × ℝ))
  | _, [] => .ok []
  | base, (dose, di) :: rest =>
    match run_patients z fu_mu fu_sigma vd_mu vd_sigma clt_mu clt_sigma
        dose di mic target base N with
    | .error e => .error e
    | .ok s =>
      if N = 0 then .error .zeroDivisionError
      else
        match run_regimens z fu_mu fu_sigma vd_mu vd_sigma clt_mu clt_sigma
            mic target N (base + 3 * N) rest with
        | .error e => .error e
        | .ok tail => .ok ((dose, di, ((s : ℝ) / (N : ℝ)) * 100) :: tail)

/-- The threshold loop of `monte_carlo_simulation` (app.py lines 33–47): for
each `mic` build the row of regimen results and store it under `results[mic]`
(Python dict assignment), accumulating into `acc`. -/
noncomputable def run_mics (z : ℕ → ℝ)
    (fu_mu fu_sigma vd_mu vd_sigma clt_mu clt_sigma : ℝ)
    (dose_intervals : List (ℝ × ℝ)) (target : ℝ) (N : ℕ) :
    ℕ → List ℝ → List (ℝ × List (ℝ × ℝ × ℝ)) →
    Except PyErr (List (ℝ × List (ℝ × ℝ × ℝ)))
  | _, [], acc => .ok acc
  | base, mic :: rest, acc =>
    match run_regimens z fu_mu fu_sigma vd_mu vd_sigma clt_mu clt_sigma
        mic target N base dose_intervals with
    | .error e => .error e
    | .ok row =>
        run_mics z fu_mu fu_sigma vd_mu vd_sigma clt_mu clt_sigma
          dose_intervals target N (base + 3 * N * dose_intervals.length) rest
          (dict_insert acc mic row)

/-- Embedding of `monte_carlo_simulation` (app.py lines 28–47): convert the
three population parameters once, then loop over thresholds, regimens and
patients.  `z` is the stream of standard-normal draws behind NumPy's global
random state. -/
noncomputable def monte_carlo_simulation (z : ℕ → ℝ) (dose_intervals : List (ℝ × ℝ))
    (fu_mean fu_std vd_mean vd_std clt_mean clt_std : ℝ) (mics : List ℝ)
    (num_patients : ℕ) (target : ℝ) :
    Except PyErr (List (ℝ × List (ℝ × ℝ × ℝ))) :=
  match calculate_lognormal_params fu_mean fu_std with
  | .error e => .error e
  | .ok fup =>
    match calculate_lognormal_params vd_mean vd_std with
    | .error e => .error e
    | .ok vdp =>
      match calculate_lognormal_params clt_mean clt_std with
      | .error e => .error e
      | .ok cltp =>
        run_mics z fup.1 fup.2 vdp.1 vdp.2 cltp.1 cltp.2 dose_intervals
          target num_patients 0 mics []

/-- Embedding of `calculate_cfr(results, mic_distribution)` (app.py lines
49–56): iterate over the result dict in insertion order and accumulate
`pta * mic_distribution.get(mic, 0)` into `cfr_results[(dose, di)]`. -/
noncomputable def calculate_cfr (results : List (ℝ × List (ℝ × ℝ × ℝ)))
    (mic_distribution : List (ℝ × ℝ)) : List ((ℝ × ℝ) × ℝ) :=
  results.foldl
    (fun acc x =>
      x.2.foldl
        (fun acc2 t => cfr_add acc2 (t.1, t.2.1) (t.2.2 * lookupD mic_distribution x.1 0))
        acc)
    []

/-- The fixed all-zeros standard-normal stream, used for concrete runs. -/
noncomputable def z0 : ℕ → ℝ := fun _ => 0

/-! ### Basic facts about `calculate_ft_mic` -/

/-- Forward evaluation: on the non-exceptional path `calculate_ft_mic`
returns the closed-form value. -/
theorem calculate_ft_mic_eval (dose fu vd mic clt di : ℝ)
    (harg : 0 < (dose * fu) / (vd * mic)) (hclt : clt ≠ 0) (hdi : di ≠ 0) :
    calculate_ft_mic dose fu vd mic clt di =
      .num (max (Real.log ((dose * fu) / (vd * mic)) * (vd / clt) * (100 / di)) 0) := by
  have hvm : vd * mic ≠ 0 := by
    intro h0
    rw [h0, div_zero] at harg
    exact lt_irrefl 0 harg
  unfold calculate_ft_mic
  rw [if_neg hvm, if_neg (not_le.mpr harg), if_neg hclt, if_neg hdi]

/-- Inversion: if `calculate_ft_mic` returned a number, all the guards held
and the number is the closed-form value. -/
theorem calculate_ft_mic_num_inv (dose fu vd mic clt di r : ℝ)
    (h : calculate_ft_mic dose fu vd mic clt di = .num r) :
    vd * mic ≠ 0 ∧ 0 < (dose * fu) / (vd * mic) ∧ clt ≠ 0 ∧ di ≠ 0 ∧
      r = max (Real.log ((dose * fu) / (vd * mic)) * (vd / clt) * (100 / di)) 0 := by
  unfold calculate_ft_mic at h
  by_cases h1 : vd * mic = 0
  · rw [if_pos h1] at h; exact absurd h (by simp)
  rw [if_neg h1] at h
  by_cases h2 : (dose * fu) / (vd * mic) ≤ 0
  · rw [if_pos h2] at h; exact absurd h (by simp)
  rw [if_neg h2] at h
  by_cases h3 : clt = 0
  · rw [if_pos h3] at h; exact absurd h (by simp)
  rw [if_neg h3] at h
  by_cases h4 : di = 0
  · rw [if_pos h4] at h; exact absurd h (by simp)
  rw [if_neg h4] at h
  exact ⟨h1, not_le.mp h2, h3, h4, (FtMicResult.num.injEq _ _ ▸ h.symm : _)⟩

/-- Claim C1: for a regimen's (dose, interval), a sampled patient triple
(fu, vd, clt) and a threshold mic, whenever the logarithm argument is
positive and clt is nonzero (the interval being positive, as every regimen's
is), the Exposure Model returns
`max (ln ((dose*fu)/(vd*mic)) * (vd/clt) * (100/di)) 0`, a non-negative
real. -/
theorem exposure_model_formula (dose fu vd mic clt di : ℝ)
    (harg : 0 < (dose * fu) / (vd * mic)) (hclt : clt ≠ 0) (hdi : 0 < di) :
    calculate_ft_mic dose fu vd mic clt di =
      .num (max (Real.log ((dose * fu) / (vd * mic)) * (vd / clt) * (100 / di)) 0) ∧
    0 ≤ max (Real.log ((dose * fu) / (vd * mic)) * (vd / clt) * (100 / di)) 0 :=
  ⟨calculate_ft_mic_eval dose fu vd mic clt di harg hclt (ne_of_gt hdi),
   le_max_right _ 0⟩

/-- Witness for C1 at dose=2, fu=1, vd=1, mic=1, clt=1, di=1. -/
theorem exposure_model_formula_witness :
    0 < ((2 : ℝ) * 1) / (1 * 1) ∧ (1 : ℝ) ≠ 0 ∧ (0 : ℝ) < 1 ∧
    (calculate_ft_mic 2 1 1 1 1 1 =
      .num (max (Real.log (((2 : ℝ) * 1) / (1 * 1)) * (1 / 1) * (100 / 1)) 0) ∧
     0 ≤ max (Real.log (((2 : ℝ) * 1) / (1 * 1)) * (1 / 1) * (100 / 1)) 0) :=
  ⟨by norm_num, by norm_num, by norm_num,
   exposure_model_formula 2 1 1 1 1 1 (by norm_num) (by norm_num) (by norm_num)⟩

/-- Claim C9: the Exposure Model is total — for all real inputs it returns
either a non-negative number or the fixed error string
"Invalid parameters. Please check your inputs."; the logarithm-domain and
division-by-zero failures are caught inside the function. -/
theorem exposure_model_total (dose fu vd mic clt di : ℝ) :
    (∃ r, calculate_ft_mic dose fu vd mic clt di = .num r ∧ 0 ≤ r) ∨
    calculate_ft_mic dose fu vd mic clt di =
      .str "Invalid parameters. Please check your inputs." := by
  unfold calculate_ft_mic
  by_cases h1 : vd * mic = 0
  · right; rw [if_pos h1]; rfl
  rw [if_neg h1]
  by_cases h2 : (dose * fu) / (vd * mic) ≤ 0
  · right; rw [if_pos h2]; rfl
  rw [if_neg h2]
  by_cases h3 : clt = 0
  · right; rw [if_pos h3]; rfl
  rw [if_neg h3]
  by_cases h4 : di = 0
  · right; rw [if_pos h4]; rfl
  rw [if_neg h4]
  exact Or.inl ⟨_, rfl, le_max_right _ 0⟩

/-- Evaluation of the converter for positive mean, with its degenerate
std = 0 case. -/
theorem lognormal_params_eval (mean std : ℝ) (hmean : 0 < mean) :
    calculate_lognormal_params mean std =
      .ok (Real.log (mean ^ 2 / Real.sqrt (std ^ 2 + mean ^ 2)),
           Real.sqrt (Real.log (1 + std ^ 2 / mean ^ 2))) ∧
    (std = 0 → calculate_lognormal_params mean std = .ok (Real.log mean, 0)) := by
  have hm2 : 0 < mean ^ 2 := pow_pos hmean 2
  have hsum : 0 < std ^ 2 + mean ^ 2 := add_pos_of_nonneg_of_pos (sq_nonneg std) hm2
  have hsqrt : 0 < Real.sqrt (std ^ 2 + mean ^ 2) := Real.sqrt_pos.mpr hsum
  have heval : calculate_lognormal_params mean std =
      .ok (Real.log (mean ^ 2 / Real.sqrt (std ^ 2 + mean ^ 2)),
           Real.sqrt (Real.log (1 + std ^ 2 / mean ^ 2))) := by
    unfold calculate_lognormal_params
    rw [if_neg (ne_of_gt hsqrt), if_neg (not_le.mpr (div_pos hm2 hsqrt)),
        if_neg (ne_of_gt hm2)]
  refine ⟨heval, fun h0 => ?_⟩
  subst h0
  rw [heval]
  have h1 : (0 : ℝ) ^ 2 + mean ^ 2 = mean ^ 2 := by ring
  have h2 : Real.sqrt (mean ^ 2) = mean := Real.sqrt_sq hmean.le
  have h3 : mean ^ 2 / mean = mean := by
    field_simp
    ring
  have h4 : (1 : ℝ) + 0 ^ 2 / mean ^ 2 = 1 := by
    rw [zero_pow (by norm_num : 2 ≠ 0), zero_div, add_zero]
  rw [h1, h2, h3, h4, Real.log_one, Real.sqrt_zero]

/-- Claim C3: for every mean > 0 and std ≥ 0 the Lognormal Parameter
Converter returns exactly `mu = ln (mean^2 / sqrt (std^2 + mean^2))` and
`sigma = sqrt (ln (1 + std^2 / mean^2))`; for std = 0 this gives
`mu = ln mean` and `sigma = 0`. -/
theorem lognormal_params_formula (mean std : ℝ) (hmean : 0 < mean) (hstd : 0 ≤ std) :
    calculate_lognormal_params mean std =
      .ok (Real.log (mean ^ 2 / Real.sqrt (std ^ 2 + mean ^ 2)),
           Real.sqrt (Real.log (1 + std ^ 2 / mean ^ 2))) ∧
    (std = 0 → calculate_lognormal_params mean std = .ok (Real.log mean, 0)) :=
  lognormal_params_eval mean std hmean

/-- Witness for C3 at mean=2, std=0. -/
theorem lognormal_params_formula_witness :
    (0 : ℝ) < 2 ∧ (0 : ℝ) ≤ 0 ∧
    calculate_lognormal_params 2 0 = .ok (Real.log 2, 0) :=
  ⟨by norm_num, le_rfl,
   (lognormal_params_formula 2 0 (by norm_num) le_rfl).2 rfl⟩

/-- Claim C8: for a fixed regimen (dose, di) and fixed patient parameters
(fu, vd, clt), the attainment outcome is monotone in the threshold: if the
patient meets the target at threshold m2 then the patient meets it at any
smaller threshold m1 (indeed the exposure value itself is at least as
large). -/
theorem attainment_monotone_in_threshold (dose fu vd clt di target m1 m2 r2 : ℝ)
    (hm1 : 0 < m1) (h12 : m1 ≤ m2) (hvd : 0 < vd) (hclt : 0 < clt) (hdi : 0 < di)
    (h2 : calculate_ft_mic dose fu vd m2 clt di = .num r2) (htar : target ≤ r2) :
    ∃ r1, calculate_ft_mic dose fu vd m1 clt di = .num r1 ∧ r2 ≤ r1 ∧ target ≤ r1 := by
  obtain ⟨hvm2, harg2, hclt', hdi', hr2⟩ := calculate_ft_mic_num_inv dose fu vd m2 clt di r2 h2
  have hm2 : 0 < m2 := hm1.trans_le h12
  have hdf : 0 < dose * fu := by
    rcases div_pos_iff.mp harg2 with ⟨h, _⟩ | ⟨_, hneg⟩
    · exact h
    · exact absurd hneg (not_lt.mpr (mul_pos hvd hm2).le)
  have harg1 : 0 < (dose * fu) / (vd * m1) := div_pos hdf (mul_pos hvd hm1)
  have hle : (dose * fu) / (vd * m2) ≤ (dose * fu) / (vd * m1) :=
    div_le_div_of_nonneg_left hdf.le (mul_pos hvd hm1)
      (mul_le_mul_of_nonneg_left h12 hvd.le)
  have hlog : Real.log ((dose * fu) / (vd * m2)) ≤ Real.log ((dose * fu) / (vd * m1)) :=
    Real.log_le_log harg2 hle
  have hmul : Real.log ((dose * fu) / (vd * m2)) * (vd / clt) * (100 / di) ≤
      Real.log ((dose * fu) / (vd * m1)) * (vd / clt) * (100 / di) :=
    mul_le_mul_of_nonneg_right
      (mul_le_mul_of_nonneg_right hlog (div_pos hvd hclt).le)
      (by positivity)
  refine ⟨max (Real.log ((dose * fu) / (vd * m1)) * (vd / clt) * (100 / di)) 0,
    calculate_ft_mic_eval dose fu vd m1 clt di harg1 hclt' (ne_of_gt hdi), ?_, ?_⟩
  · rw [hr2]
    exact max_le_max hmul le_rfl
  · refine htar.trans ?_
    rw [hr2]
    exact max_le_max hmul le_rfl

/-- Witness for C8 at dose=4, fu=1, vd=1, clt=1, di=1, target=0, m1=1, m2=2. -/
theorem attainment_monotone_in_threshold_witness :
    ∃ r1, calculate_ft_mic 4 1 1 1 1 1 = .num r1 ∧
      max (Real.log (((4 : ℝ) * 1) / (1 * 2)) * (1 / 1) * (100 / 1)) 0 ≤ r1 ∧
      (0 : ℝ) ≤ r1 :=
  attainment_monotone_in_threshold 4 1 1 1 1 0 1 2
    (max (Real.log (((4 : ℝ) * 1) / (1 * 2)) * (1 / 1) * (100 / 1)) 0)
    (by norm_num) (by norm_num) (by norm_num) (by norm_num) (by norm_num)
    (calculate_ft_mic_eval 4 1 1 2 1 1 (by norm_num) (by norm_num) (by norm_num))
    (le_max_right _ 0)

/-! ### Concrete evaluations of the engine on the all-zeros random stream -/

/-- With mean 1 and std 0, the converter yields mu = 0, sigma = 0. -/
theorem conv_params_one : calculate_lognormal_params 1 0 = .ok (0, 0) := by
  have h := (lognormal_params_eval 1 0 one_pos).2 rfl
  rwa [Real.log_one] at h

/-- With the invalid mean -1 (and std 0) the converter raises no error at
all: it happily yields mu = 0, sigma = 0. -/
theorem conv_params_neg_one : calculate_lognormal_params (-1) 0 = .ok (0, 0) := by
  unfold calculate_lognormal_params
  norm_num [Real.sqrt_one, Real.log_one, Real.sqrt_zero]

/-- A degenerate lognormal draw with mu = sigma = 0 equals 1. -/
theorem lognormal_draw_z0_zero (k : ℕ) : lognormal_draw z0 0 0 k = 1 := by
  simp [lognormal_draw, z0, Real.exp_zero]

/-- Exposure model at dose=1, fu=vd=clt=1, mic=1, di=2: the logarithm
argument is 1, so the result is max (0 * 1 * 50) 0 = 0. -/
theorem ft_eval_one : calculate_ft_mic 1 1 1 1 1 2 = .num 0 := by
  have h := calculate_ft_mic_eval 1 1 1 1 1 2 (by norm_num) (by norm_num) (by norm_num)
  norm_num [Real.log_one] at h
  exact h

/-- Exposure model at mic = 0: `(dose*fu)/(vd*mic)` divides by zero, so the
error string is returned. -/
theorem ft_eval_mic_zero : calculate_ft_mic 1 1 1 0 1 2 = .str invalid_msg := by
  unfold calculate_ft_mic
  norm_num

/-- Exposure model at dose = 0: the logarithm argument is 0, so the error
string is returned. -/
theorem ft_eval_dose_zero : calculate_ft_mic 0 1 1 1 1 2 = .str invalid_msg := by
  unfold calculate_ft_mic
  norm_num

/-- One patient on the degenerate stream at a benign regimen meets target 0. -/
theorem rp_eval_ok (base : ℕ) : run_patients z0 0 0 0 0 0 0 1 2 1 0 base 1 = .ok 1 := by
  simp [run_patients, lognormal_draw_z0_zero, ft_eval_one]

/-- One patient at mic = 0: the error string is compared against the target,
raising TypeError. -/
theorem rp_eval_mic_zero (base : ℕ) (target : ℝ) :
    run_patients z0 0 0 0 0 0 0 1 2 0 target base 1 = .error .typeError := by
  simp [run_patients, lognormal_draw_z0_zero, ft_eval_mic_zero]

/-- One patient at dose = 0: the error string is compared against the target,
raising TypeError. -/
theorem rp_eval_dose_zero (base : ℕ) (target : ℝ) :
    run_patients z0 0 0 0 0 0 0 0 2 1 target base 1 = .error .typeError := by
  simp [run_patients, lognormal_draw_z0_zero, ft_eval_dose_zero]

/-- The regimen loop on the benign configuration yields PTA 100. -/
theorem rr_eval_ok (base : ℕ) :
    run_regimens z0 0 0 0 0 0 0 1 0 1 base [(1, 2)] = .ok [(1, 2, 100)] := by
  simp [run_regimens, rp_eval_ok]

/-- The regimen loop aborts with TypeError when mic = 0. -/
theorem rr_eval_mic_zero (base : ℕ) :
    run_regimens z0 0 0 0 0 0 0 0 55 1 base [(1, 2)] = .error .typeError := by
  simp [run_regimens, rp_eval_mic_zero]

/-- The regimen loop aborts with TypeError when dose = 0. -/
theorem rr_eval_dose_zero (base : ℕ) :
    run_regimens z0 0 0 0 0 0 0 1 55 1 base [(0, 2)] = .error .typeError := by
  simp [run_regimens, rp_eval_dose_zero]

/-- The threshold loop on the benign configuration. -/
theorem rm_eval_ok :
    run_mics z0 0 0 0 0 0 0 [(1, 2)] 0 1 0 [1] [] = .ok [(1, [(1, 2, 100)])] := by
  simp [run_mics, rr_eval_ok, dict_insert]

/-- A complete benign simulation run: one regimen (1,2), one threshold 1,
one patient, target 0, all population parameters (mean 1, std 0). -/
theorem mc_eval_ok :
    monte_carlo_simulation z0 [(1, 2)] 1 0 1 0 1 0 [1] 1 0 = .ok [(1, [(1, 2, 100)])] := by
  simp [monte_carlo_simulation, conv_params_one, rm_eval_ok]

/-- The threshold loop aborts with TypeError when the threshold list contains 0. -/
theorem rm_eval_mic_zero :
    run_mics z0 0 0 0 0 0 0 [(1, 2)] 55 1 0 [0] [] = .error .typeError := by
  simp [run_mics, rr_eval_mic_zero]

/-- The threshold loop aborts with TypeError when a regimen has dose 0. -/
theorem rm_eval_dose_zero :
    run_mics z0 0 0 0 0 0 0 [(0, 2)] 55 1 0 [1] [] = .error .typeError := by
  simp [run_mics, rr_eval_dose_zero]

/-- Claim C2 (code bug): on a patient draw whose logarithm argument divides
by zero (threshold 0 here), the engine does NOT treat the draw as "target
not met": `calculate_ft_mic` returns its error string, the comparison
`ft_mic >= target` then compares a string with a number, and the resulting
uncaught TypeError aborts the whole simulation run. -/
theorem engine_aborts_on_domain_error :
    monte_carlo_simulation z0 [(1, 2)] 1 0 1 0 1 0 [0] 1 55 = .error .typeError := by
  simp [monte_carlo_simulation, conv_params_one, rm_eval_mic_zero]

/-- Claim C6 (code bug): with the invalid population mean -1 for the unbound
fraction, the simulation is not rejected at any input-validation boundary:
the converter is invoked, sampling proceeds, and the run completes normally,
reporting PTA 100. -/
theorem no_input_validation_on_nonpositive_mean :
    monte_carlo_simulation z0 [(1, 2)] (-1) 0 1 0 1 0 [1] 1 0 = .ok [(1, [(1, 2, 100)])] := by
  simp [monte_carlo_simulation, conv_params_neg_one, conv_params_one, rm_eval_ok]

/-- Counterexample to claim C4 as stated: an input whose only patient draw
triggers a domain error (dose 0) does not yield the attainment value 0 — it
aborts the run with a TypeError, so no value in [0,100] is reported. -/
theorem attainment_domain_error_counterexample :
    monte_carlo_simulation z0 [(0, 2)] 1 0 1 0 1 0 [1] 1 55 = .error .typeError := by
  simp [monte_carlo_simulation, conv_params_one, rm_eval_dose_zero]

/-! ### Structural facts about the engine loops -/

/-- The patient loop counts at most one success per patient. -/
theorem run_patients_le (z : ℕ → ℝ) (p1 p2 p3 p4 p5 p6 dose di mic target : ℝ) :
    ∀ n base s, run_patients z p1 p2 p3 p4 p5 p6 dose di mic target base n = .ok s →
      s ≤ n := by
  intro n
  induction n with
  | zero =>
    intro base s h
    simp only [run_patients] at h
    injection h with h'
    omega
  | succ n ih =>
    intro base s h
    simp only [run_patients] at h
    split at h
    · simp at h
    · split at h
      · simp at h
      · rename_i s' hrec
        injection h with h'
        have hs' := ih _ _ hrec
        have hle : (if target ≤ _ then 1 else 0) + s' = s := h'
        split at hle <;> omega

/-- Each entry of a completed regimen row projects to its input regimen. -/
theorem run_regimens_shape (z : ℕ → ℝ) (p1 p2 p3 p4 p5 p6 mic target : ℝ) (N : ℕ) :
    ∀ regimens base row,
      run_regimens z p1 p2 p3 p4 p5 p6 mic target N base regimens = .ok row →
      row.map (fun t => (t.1, t.2.1)) = regimens := by
  intro regimens
  induction regimens with
  | nil =>
    intro base row h
    simp only [run_regimens] at h
    injection h with h'
    simp [← h']
  | cons hd tl ih =>
    obtain ⟨dose, di⟩ := hd
    intro base row h
    simp only [run_regimens] at h
    split at h
    · simp at h
    · split at h
      · simp at h
      · split at h
        · simp at h
        · rename_i tail htail
          injection h with h'
          simp [← h', ih _ _ htail]

/-- Each entry of a completed regimen row records the PTA value
`(success_count / num_patients) * 100` produced by some patient loop. -/
theorem run_regimens_mem (z : ℕ → ℝ) (p1 p2 p3 p4 p5 p6 mic target : ℝ) (N : ℕ) :
    ∀ regimens base row,
      run_regimens z p1 p2 p3 p4 p5 p6 mic target N base regimens = .ok row →
      ∀ t ∈ row, N ≠ 0 ∧ ∃ b s,
        run_patients z p1 p2 p3 p4 p5 p6 t.1 t.2.1 mic target b N = .ok s ∧
        t.2.2 = ((s : ℝ) / (N : ℝ)) * 100 := by
  intro regimens
  induction regimens with
  | nil =>
    intro base row h t ht
    simp only [run_regimens] at h
    injection h with h'
    rw [← h'] at ht
    simp at ht
  | cons hd tl ih =>
    obtain ⟨dose, di⟩ := hd
    intro base row h t ht
    simp only [run_regimens] at h
    split at h
    · simp at h
    · rename_i s hs
      split at h
      · simp at h
      · rename_i hN
        split at h
        · simp at h
        · rename_i tail htail
          injection h with h'
          rw [← h'] at ht
          rcases List.mem_cons.mp ht with h'' | h''
          · subst h''
            exact ⟨hN, base, s, hs, rfl⟩
          · exact ih _ _ htail t h''

/-- Members of a Python-dict insertion were already present or are the new pair. -/
theorem dict_insert_mem {κ α : Type} [DecidableEq κ] :
    ∀ (d : List (κ × α)) (k : κ) (v : α) (x : κ × α),
      x ∈ dict_insert d k v → x ∈ d ∨ x = (k, v) := by
  intro d k v
  induction d with
  | nil =>
    intro x hx
    simp [dict_insert] at hx
    right
    simp [hx]
  | cons hd tl ih =>
    obtain ⟨k', v'⟩ := hd
    intro x hx
    simp only [dict_insert] at hx
    by_cases hk : k' = k
    · rw [if_pos hk] at hx
      rcases List.mem_cons.mp hx with h | h
      · right
        rw [h, hk]
      · left
        exact List.mem_cons_of_mem _ h
    · rw [if_neg hk] at hx
      rcases List.mem_cons.mp hx with h | h
      · left
        rw [h]
        exact List.mem_cons_self _ _
      · rcases ih x h with h' | h'
        · exact Or.inl (List.mem_cons_of_mem _ h')
        · exact Or.inr h'

/-- Inserting a fresh key into a Python dict appends the pair. -/
theorem dict_insert_append {κ α : Type} [DecidableEq κ] :
    ∀ (d : List (κ × α)) (k : κ) (v : α), k ∉ d.map Prod.fst →
      dict_insert d k v = d ++ [(k, v)] := by
  intro d k v
  induction d with
  | nil => intro _; rfl
  | cons hd tl ih =>
    obtain ⟨k', v'⟩ := hd
    intro hk
    simp only [List.map_cons, List.mem_cons] at hk
    push_neg at hk
    simp only [dict_insert]
    rw [if_neg (fun h => hk.1 h.symm), ih hk.2]
    rfl

/-- Every entry of a completed threshold loop is either inherited from the
accumulator or is a completed regimen row for its own threshold. -/
theorem run_mics_mem (z : ℕ → ℝ) (p1 p2 p3 p4 p5 p6 : ℝ)
    (regimens : List (ℝ × ℝ)) (target : ℝ) (N : ℕ) :
    ∀ mics base acc results,
      run_mics z p1 p2 p3 p4 p5 p6 regimens target N base mics acc = .ok results →
      ∀ x ∈ results, x ∈ acc ∨ ∃ b,
        run_regimens z p1 p2 p3 p4 p5 p6 x.1 target N b regimens = .ok x.2 := by
  intro mics
  induction mics with
  | nil =>
    intro base acc results h x hx
    simp only [run_mics] at h
    injection h with h'
    rw [← h'] at hx
    exact Or.inl hx
  | cons mic rest ih =>
    intro base acc results h x hx
    simp only [run_mics] at h
    split at h
    · simp at h
    · rename_i row hrow
      rcases ih _ _ _ h x hx with hmem | hgen
      · rcases dict_insert_mem acc mic row x hmem with h' | h'
        · exact Or.inl h'
        · right
          refine ⟨base, ?_⟩
          rw [h']
          exact hrow
      · exact Or.inr hgen

/-- With distinct thresholds, the completed threshold loop extends the
accumulator's keys by the thresholds in input order. -/
theorem run_mics_keys (z : ℕ → ℝ) (p1 p2 p3 p4 p5 p6 : ℝ)
    (regimens : List (ℝ × ℝ)) (target : ℝ) (N : ℕ) :
    ∀ mics base acc results, mics.Nodup →
      (∀ m ∈ mics, m ∉ acc.map Prod.fst) →
      run_mics z p1 p2 p3 p4 p5 p6 regimens target N base mics acc = .ok results →
      results.map Prod.fst = acc.map Prod.fst ++ mics := by
  intro mics
  induction mics with
  | nil =>
    intro base acc results _ _ h
    simp only [run_mics] at h
    injection h with h'
    simp [← h']
  | cons mic rest ih =>
    intro base acc results hnd hacc h
    simp only [run_mics] at h
    split at h
    · simp at h
    · rename_i row hrow
      have hmic : mic ∉ acc.map Prod.fst := hacc mic (List.mem_cons_self _ _)
      rw [dict_insert_append acc mic row hmic] at h
      have hrest : ∀ m ∈ rest, m ∉ (acc ++ [(mic, row)]).map Prod.fst := by
        intro m hm
        simp only [List.map_append, List.mem_append, List.map_cons, List.map_nil,
          List.mem_singleton]
        push_neg
        refine ⟨hacc m (List.mem_cons_of_mem _ hm), ?_⟩
        intro hme
        exact (List.nodup_cons.mp hnd).1 (hme ▸ hm)
      have := ih _ _ _ (List.nodup_cons.mp hnd).2 hrest h
      rw [this]
      simp

/-- Claim C10: whenever the engine completes a run on distinct thresholds,
the output mapping has exactly the input thresholds as keys in input order,
and each threshold's list projects, entry by entry and in order, to the
input regimen list — nothing is dropped, duplicated or reordered. -/
theorem engine_output_structure (z : ℕ → ℝ) (regimens : List (ℝ × ℝ))
    (fu_mean fu_std vd_mean vd_std clt_mean clt_std : ℝ) (mics : List ℝ)
    (N : ℕ) (target : ℝ) (results : List (ℝ × List (ℝ × ℝ × ℝ)))
    (hnd : mics.Nodup)
    (h : monte_carlo_simulation z regimens fu_mean fu_std vd_mean vd_std
          clt_mean clt_std mics N target = .ok results) :
    results.map Prod.fst = mics ∧
    ∀ x ∈ results, x.2.map (fun t => (t.1, t.2.1)) = regimens := by
  unfold monte_carlo_simulation at h
  split at h
  · simp at h
  · rename_i fup hfu
    split at h
    · simp at h
    · rename_i vdp hvd
      split at h
      · simp at h
      · rename_i cltp hclt
        constructor
        · have := run_mics_keys z fup.1 fup.2 vdp.1 vdp.2 cltp.1 cltp.2
            regimens target N mics 0 [] results hnd (by simp) h
          simpa using this
        · intro x hx
          rcases run_mics_mem z fup.1 fup.2 vdp.1 vdp.2 cltp.1 cltp.2
              regimens target N mics 0 [] results h x hx with hmem | ⟨b, hrr⟩
          · simp at hmem
          · exact run_regimens_shape z fup.1 fup.2 vdp.1 vdp.2 cltp.1 cltp.2
              x.1 target N regimens b x.2 hrr

/-- Witness for C10 on the benign concrete run. -/
theorem engine_output_structure_witness :
    [((1 : ℝ), [((1 : ℝ), (2 : ℝ), (100 : ℝ))])].map Prod.fst = [(1 : ℝ)] ∧
    ∀ x ∈ [((1 : ℝ), [((1 : ℝ), (2 : ℝ), (100 : ℝ))])],
      x.2.map (fun t => (t.1, t.2.1)) = [((1 : ℝ), (2 : ℝ))] :=
  engine_output_structure z0 [(1, 2)] 1 0 1 0 1 0 [1] 1 0
    [(1, [(1, 2, 100)])] (List.nodup_singleton 1) mc_eval_ok

/-- Claim C4 (amended): whenever the engine completes a run with N ≥ 1
patients, every reported attainment value equals `100 * successes / N` for
the success count of its own patient loop, and lies in [0, 100].  (Inputs
that raise a DomainError on a patient draw abort the run instead of
reporting 0 — see the counterexample.) -/
theorem attainment_formula_and_range (z : ℕ → ℝ) (regimens : List (ℝ × ℝ))
    (fu_mean fu_std vd_mean vd_std clt_mean clt_std : ℝ) (mics : List ℝ)
    (N : ℕ) (target : ℝ) (results : List (ℝ × List (ℝ × ℝ × ℝ)))
    (x : ℝ × List (ℝ × ℝ × ℝ)) (t : ℝ × ℝ × ℝ)
    (hN : 1 ≤ N)
    (h : monte_carlo_simulation z regimens fu_mean fu_std vd_mean vd_std
          clt_mean clt_std mics N target = .ok results)
    (hx : x ∈ results) (ht : t ∈ x.2) :
    ∃ fup vdp cltp b s,
      calculate_lognormal_params fu_mean fu_std = .ok fup ∧
      calculate_lognormal_params vd_mean vd_std = .ok vdp ∧
      calculate_lognormal_params clt_mean clt_std = .ok cltp ∧
      run_patients z fup.1 fup.2 vdp.1 vdp.2 cltp.1 cltp.2
        t.1 t.2.1 x.1 target b N = .ok s ∧
      s ≤ N ∧ t.2.2 = 100 * (s : ℝ) / N ∧ 0 ≤ t.2.2 ∧ t.2.2 ≤ 100 := by
  unfold monte_carlo_simulation at h
  split at h
  · simp at h
  · rename_i fup hfu
    split at h
    · simp at h
    · rename_i vdp hvd
      split at h
      · simp at h
      · rename_i cltp hclt
        rcases run_mics_mem z fup.1 fup.2 vdp.1 vdp.2 cltp.1 cltp.2
            regimens target N mics 0 [] results h x hx with hmem | ⟨b, hrr⟩
        · simp at hmem
        · obtain ⟨hN0, b', s, hrp, hpta⟩ :=
            run_regimens_mem z fup.1 fup.2 vdp.1 vdp.2 cltp.1 cltp.2
              x.1 target N regimens b x.2 hrr t ht
          have hsN : s ≤ N := run_patients_le _ _ _ _ _ _ _ _ _ _ _ _ _ _ hrp
          have hNpos : (0 : ℝ) < (N : ℝ) := by
            exact_mod_cast Nat.pos_of_ne_zero hN0
          refine ⟨fup, vdp, cltp, b', s, hfu, hvd, hclt, hrp, hsN, ?_, ?_, ?_⟩
          · rw [hpta]
            ring
          · rw [hpta]
            positivity
          · rw [hpta]
            have hdiv : (s : ℝ) / (N : ℝ) ≤ 1 :=
              (div_le_one hNpos).mpr (by exact_mod_cast hsN)
            nlinarith

/-- Witness for C4 (amended) on the benign concrete run, at its single
threshold entry and single regimen triple. -/
theorem attainment_formula_and_range_witness :
    ∃ fup vdp cltp b s,
      calculate_lognormal_params 1 0 = .ok fup ∧
      calculate_lognormal_params 1 0 = .ok vdp ∧
      calculate_lognormal_params 1 0 = .ok cltp ∧
      run_patients z0 fup.1 fup.2 vdp.1 vdp.2 cltp.1 cltp.2
        ((1 : ℝ), (2 : ℝ), (100 : ℝ)).1 ((1 : ℝ), (2 : ℝ), (100 : ℝ)).2.1
        ((1 : ℝ), [((1 : ℝ), (2 : ℝ), (100 : ℝ))]).1 0 b 1 = .ok s ∧
      s ≤ 1 ∧ ((1 : ℝ), (2 : ℝ), (100 : ℝ)).2.2 = 100 * (s : ℝ) / ((1 : ℕ) : ℝ) ∧
      (0 : ℝ) ≤ ((1 : ℝ), (2 : ℝ), (100 : ℝ)).2.2 ∧
      ((1 : ℝ), (2 : ℝ), (100 : ℝ)).2.2 ≤ 100 :=
  attainment_formula_and_range z0 [(1, 2)] 1 0 1 0 1 0 [1] 1 0
    [(1, [(1, 2, 100)])] (1, [(1, 2, 100)]) (1, 2, 100) le_rfl mc_eval_ok
    (List.mem_singleton.mpr rfl) (List.mem_singleton.mpr rfl)

/-! ### Facts about the Response Aggregator -/

/-- A key absent from a Python dict looks up to the supplied default. -/
theorem lookupD_not_mem {κ : Type} [DecidableEq κ] :
    ∀ (d : List (κ × ℝ)) (k : κ) (v0 : ℝ), k ∉ d.map Prod.fst →
      lookupD d k v0 = v0 := by
  intro d k v0
  induction d with
  | nil => intro _; rfl
  | cons hd tl ih =>
    obtain ⟨k', v'⟩ := hd
    intro hk
    simp only [List.map_cons, List.mem_cons] at hk
    push_neg at hk
    simp only [lookupD]
    rw [if_neg (fun h => hk.1 h.symm), ih hk.2]

/-- `cfr_add` changes the looked-up total only at its own key, by its value. -/
theorem lookupD_cfr_add {κ : Type} [DecidableEq κ] :
    ∀ (acc : List (κ × ℝ)) (key k : κ) (v : ℝ),
      lookupD (cfr_add acc key v) k 0 =
        lookupD acc k 0 + (if k = key then v else 0) := by
  intro acc key k v
  induction acc with
  | nil =>
    by_cases h : key = k
    · subst h
      simp [cfr_add, lookupD]
    · have h' : ¬k = key := fun hh => h hh.symm
      simp [cfr_add, lookupD, h, h']
  | cons hd tl ih =>
    obtain ⟨k', v'⟩ := hd
    by_cases h1 : k' = key
    · subst h1
      by_cases h2 : k' = k
      · subst h2
        simp [cfr_add, lookupD]
      · have h2' : ¬k = k' := fun hh => h2 hh.symm
        simp [cfr_add, lookupD, h2, h2']
    · by_cases h2 : k' = k
      · subst h2
        have h1' : ¬k' = key := h1
        simp [cfr_add, lookupD, h1']
      · simp [cfr_add, lookupD, h1, h2, ih]

/-- Effect of one threshold's row on the CFR accumulator. -/
theorem lookupD_row_fold :
    ∀ (row : List (ℝ × ℝ × ℝ)) (acc : List ((ℝ × ℝ) × ℝ)) (k : ℝ × ℝ) (w : ℝ),
      lookupD (row.foldl (fun a t => cfr_add a (t.1, t.2.1) (t.2.2 * w)) acc) k 0
        = lookupD acc k 0 +
          (row.map (fun t => if k = (t.1, t.2.1) then t.2.2 * w else 0)).sum := by
  intro row
  induction row with
  | nil => intro acc k w; simp
  | cons t ts ih =>
    intro acc k w
    simp only [List.foldl_cons, List.map_cons, List.sum_cons]
    rw [ih, lookupD_cfr_add]
    ring

/-- Closed form of a CFR lookup: the sum, over the result entries, of each
entry's matching PTA values weighted by its threshold's weight. -/
theorem lookupD_calculate_cfr (results : List (ℝ × List (ℝ × ℝ × ℝ)))
    (dist : List (ℝ × ℝ)) (k : ℝ × ℝ) :
    lookupD (calculate_cfr results dist) k 0
      = (results.map (fun x =>
          (x.2.map (fun t =>
            if k = (t.1, t.2.1) then t.2.2 * lookupD dist x.1 0 else 0)).sum)).sum := by
  have hfold : ∀ (rs : List (ℝ × List (ℝ × ℝ × ℝ))) (acc : List ((ℝ × ℝ) × ℝ)),
      lookupD (rs.foldl (fun acc x =>
        x.2.foldl (fun acc2 t =>
          cfr_add acc2 (t.1, t.2.1) (t.2.2 * lookupD dist x.1 0)) acc) acc) k 0
        = lookupD acc k 0 +
          (rs.map (fun x =>
            (x.2.map (fun t =>
              if k = (t.1, t.2.1) then t.2.2 * lookupD dist x.1 0 else 0)).sum)).sum := by
    intro rs
    induction rs with
    | nil => intro acc; simp
    | cons x xs ih =>
      intro acc
      simp only [List.foldl_cons, List.map_cons, List.sum_cons]
      rw [ih, lookupD_row_fold]
      ring
  unfold calculate_cfr
  rw [hfold]
  simp [lookupD]

/-- Summing an indicator-style map over a duplicate-free list picks out the
single matching element. -/
theorem sum_ite_eq_single {α : Type} [DecidableEq α] (f : α → ℝ) :
    ∀ (l : List α) (k : α), l.Nodup → k ∈ l →
      (l.map (fun a => if k = a then f a else 0)).sum = f k := by
  have hzero : ∀ (l : List α) (k : α), k ∉ l →
      (l.map (fun a => if k = a then f a else 0)).sum = 0 := by
    intro l k hk
    apply List.sum_eq_zero
    intro x hx
    rcases List.mem_map.mp hx with ⟨a, ha, hax⟩
    rw [← hax]
    by_cases hka : k = a
    · subst hka
      exact absurd ha hk
    · rw [if_neg hka]
  intro l
  induction l with
  | nil => intro k _ hk; simp at hk
  | cons a ts ih =>
    intro k hnd hk
    simp only [List.map_cons, List.sum_cons]
    rcases List.mem_cons.mp hk with h | h
    · rw [if_pos h, hzero ts k (h ▸ (List.nodup_cons.mp hnd).1), add_zero, h]
    · have hka : ¬k = a := fun hh => (List.nodup_cons.mp hnd).1 (hh ▸ h)
      rw [if_neg hka, ih k (List.nodup_cons.mp hnd).2 h, zero_add]

/-- Summing a function supported on a single element of a duplicate-free
list yields its value there. -/
theorem sum_single_support (g : ℝ → ℝ) :
    ∀ (l : List ℝ) (t0 : ℝ), l.Nodup → t0 ∈ l →
      (∀ m ∈ l, m ≠ t0 → g m = 0) → (l.map g).sum = g t0 := by
  intro l
  induction l with
  | nil => intro t0 _ ht0; simp at ht0
  | cons a ts ih =>
    intro t0 hnd ht0 hg
    simp only [List.map_cons, List.sum_cons]
    rcases List.mem_cons.mp ht0 with h | h
    · rw [← h]
      have : (ts.map g).sum = 0 := by
        apply List.sum_eq_zero
        intro x hx
        rcases List.mem_map.mp hx with ⟨m, hm, hmx⟩
        rw [← hmx]
        exact hg m (List.mem_cons_of_mem _ hm)
          (fun hh => (List.nodup_cons.mp hnd).1 (h ▸ hh ▸ hm))
      rw [this, add_zero]
    · have ha : g a = 0 :=
        hg a (List.mem_cons_self _ _)
          (fun hh => (List.nodup_cons.mp hnd).1 (hh ▸ h))
      rw [ha, ih t0 (List.nodup_cons.mp hnd).2 h
        (fun m hm hmt => hg m (List.mem_cons_of_mem _ hm) hmt), zero_add]

/-- CFR lookup on an engine-shaped result: the weighted sum over thresholds
of that regimen's PTA values. -/
theorem cfr_structured_lookup (mics : List ℝ) (regimens : List (ℝ × ℝ))
    (P : ℝ → ℝ × ℝ → ℝ) (dist : List (ℝ × ℝ)) (d i : ℝ)
    (hnd : regimens.Nodup) (hmem : (d, i) ∈ regimens) :
    lookupD (calculate_cfr
        (mics.map fun m => (m, regimens.map fun r => (r.1, r.2, P m r))) dist)
        (d, i) 0
      = (mics.map fun m => P m (d, i) * lookupD dist m 0).sum := by
  rw [lookupD_calculate_cfr, List.map_map]
  have hpt : ((fun x : ℝ × List (ℝ × ℝ × ℝ) =>
        (x.2.map (fun t =>
          if (d, i) = (t.1, t.2.1) then t.2.2 * lookupD dist x.1 0 else 0)).sum) ∘
      (fun m : ℝ => (m, regimens.map fun r => (r.1, r.2, P m r))))
      = fun m : ℝ => P m (d, i) * lookupD dist m 0 := by
    funext m
    simp only [Function.comp_apply]
    rw [List.map_map]
    have hcomp : ((fun t : ℝ × ℝ × ℝ =>
          if (d, i) = (t.1, t.2.1) then t.2.2 * lookupD dist m 0 else 0) ∘
        (fun r : ℝ × ℝ => (r.1, r.2, P m r)))
        = fun r : ℝ × ℝ => if (d, i) = r then P m r * lookupD dist m 0 else 0 := by
      funext r
      rfl
    rw [hcomp]
    exact sum_ite_eq_single (fun r => P m r * lookupD dist m 0) regimens (d, i) hnd hmem
  rw [hpt]

/-- Claim C5: on an engine-shaped result, the Response Aggregator's score for
a regimen is the sum, over the thresholds present in the result, of that
threshold's attainment value times its weight in the susceptibility
distribution; a threshold absent from the distribution contributes weight 0
without error. -/
theorem response_score_weighted_sum (mics : List ℝ) (regimens : List (ℝ × ℝ))
    (P : ℝ → ℝ × ℝ → ℝ) (dist : List (ℝ × ℝ)) (d i : ℝ)
    (hnd : regimens.Nodup) (hmem : (d, i) ∈ regimens) :
    lookupD (calculate_cfr
        (mics.map fun m => (m, regimens.map fun r => (r.1, r.2, P m r))) dist)
        (d, i) 0
      = (mics.map fun m => P m (d, i) * lookupD dist m 0).sum ∧
    ∀ m, m ∉ dist.map Prod.fst → lookupD dist m 0 = 0 :=
  ⟨cfr_structured_lookup mics regimens P dist d i hnd hmem,
   fun m hm => lookupD_not_mem dist m 0 hm⟩

/-- Witness for C5: thresholds [1, 2] with attainment value m at threshold m,
single regimen (3, 4), distribution giving weight 5 to threshold 1 only. -/
theorem response_score_weighted_sum_witness :
    lookupD (calculate_cfr
        ([(1 : ℝ), 2].map fun m =>
          (m, [((3 : ℝ), (4 : ℝ))].map fun r => (r.1, r.2, m)))
        [((1 : ℝ), (5 : ℝ))]) ((3 : ℝ), (4 : ℝ)) 0
      = ([(1 : ℝ), 2].map fun m => m * lookupD [((1 : ℝ), (5 : ℝ))] m 0).sum ∧
    ∀ m, m ∉ ([((1 : ℝ), (5 : ℝ))].map Prod.fst) →
      lookupD [((1 : ℝ), (5 : ℝ))] m 0 = 0 :=
  response_score_weighted_sum [1, 2] [(3, 4)] (fun m _ => m) [(1, 5)] 3 4
    (List.nodup_singleton _) (List.mem_singleton.mpr rfl)

/-- Claim C7: if the susceptibility distribution assigns weight 1 to exactly
one threshold present in the result and weight 0 to all others, the
ResponseScore of a regimen equals the AttainmentResult of that threshold and
regimen. -/
theorem response_score_single_threshold (mics : List ℝ) (regimens : List (ℝ × ℝ))
    (P : ℝ → ℝ × ℝ → ℝ) (dist : List (ℝ × ℝ)) (d i t0 : ℝ)
    (hndr : regimens.Nodup) (hndm : mics.Nodup) (hmem : (d, i) ∈ regimens)
    (ht0 : t0 ∈ mics) (hw1 : lookupD dist t0 0 = 1)
    (hw0 : ∀ m ∈ mics, m ≠ t0 → lookupD dist m 0 = 0) :
    lookupD (calculate_cfr
        (mics.map fun m => (m, regimens.map fun r => (r.1, r.2, P m r))) dist)
        (d, i) 0
      = P t0 (d, i) := by
  rw [cfr_structured_lookup mics regimens P dist d i hndr hmem]
  rw [sum_single_support (fun m => P m (d, i) * lookupD dist m 0) mics t0 hndm ht0
    (fun m hm hmt => by simp only []; rw [hw0 m hm hmt, mul_zero])]
  rw [hw1, mul_one]

/-- Witness for C7: thresholds [1, 2], attainment value m at threshold m,
single regimen (3, 4), distribution giving weight 1 to threshold 2 only. -/
theorem response_score_single_threshold_witness :
    lookupD (calculate_cfr
        ([(1 : ℝ), 2].map fun m =>
          (m, [((3 : ℝ), (4 : ℝ))].map fun r => (r.1, r.2, m)))
        [((2 : ℝ), (1 : ℝ))]) ((3 : ℝ), (4 : ℝ)) 0
      = 2 :=
  response_score_single_threshold [1, 2] [(3, 4)] (fun m _ => m) [(2, 1)] 3 4 2
    (List.nodup_singleton _) (by norm_num) (List.mem_singleton.mpr rfl)
    (by norm_num) (by simp [lookupD])
    (by
      intro m hm hmt
      simp only [lookupD]
      rw [if_neg (fun h => hmt h.symm)])
